import Mathlib

/-!
Shallow embedding of the display-formatting filter library
(`tracker/templatetags/custom_filters.py`) and proofs of the spec's claims
about it.

Conventions used throughout:

* Python strings are `String` / `List Char`.  `str.lower` is modelled by the
  ASCII case mapping `Char.toLower` (every label handled by the filters is
  ASCII), `str.strip` by removing the characters of Python's default
  whitespace class from both ends, and `str.replace` with a single-character
  pattern by a character map.
* Python `datetime` values are modelled as an absolute instant (an integer
  count of microseconds) together with a timezone-awareness flag; the
  process-wide current timezone is passed in explicitly as its UTC offset
  `off`, and `timezone.now()` as the parameter `now`.
* Filters that can raise are modelled with `Except PyExc`; each `try/except`
  clause of the source catches exactly the exception classes it names, so an
  exception outside that list escapes as `.error`.
* Values of dynamic type are modelled by small inductives whose constructors
  are the shapes the source distinguishes (`None`, `str`, numbers,
  record-like objects with optional fields); `Option` models both `None`
  fields and fallible coercions such as `float(...)`.
-/

namespace CustomFilters

/-- The exception classes that matter to the filters. -/
inductive PyExc where
  | typeError
  | valueError
  | zeroDivisionError
  /-- `decimal.InvalidOperation`, raised by `Decimal(...)` on an unparsable
  string.  It derives from `ArithmeticError`, not from `ValueError`,
  `TypeError` or `ZeroDivisionError`. -/
  | invalidOperation
  | attributeError
deriving DecidableEq

/-- Python's default whitespace class for `str.strip`:
space, `\t`, `\n`, `\r`, `\x0b`, `\x0c`. -/
def pyIsSpace (c : Char) : Bool :=
  c.toNat = 32 || c.toNat = 9 || c.toNat = 10 || c.toNat = 13 ||
    c.toNat = 11 || c.toNat = 12

/-- `s.lower()` on a character list (ASCII case mapping). -/
def pyLower (l : List Char) : List Char := l.map Char.toLower

/-- `s.strip()` on a character list: drop whitespace from both ends. -/
def pyStrip (l : List Char) : List Char :=
  List.rdropWhile pyIsSpace (List.dropWhile pyIsSpace l)

/-- The character action of `value.replace('_', '-')`. -/
def undToDash (c : Char) : Char := if c = '_' then '-' else c

/-- `value.replace('_', '-')`: the pattern is a single character, so the
replacement is a character map. -/
def replaceUnd (l : List Char) : List Char := l.map undToDash

/-- The `status_mapping` dict of `to_css_class`, as lookup by key equality. -/
def statusMap (v : List Char) : Option (List Char) :=
  if v = "created".data then some "pending".data
  else if v = "assigned".data then some "in-progress".data
  else if v = "in_progress".data then some "in-progress".data
  else if v = "inprogress".data then some "in-progress".data
  else if v = "overdue".data then some "overdue".data
  else if v = "completed".data then some "completed".data
  else if v = "cancelled".data then some "cancelled".data
  else if v = "pending".data then some "pending".data
  else if v = "low".data then some "low".data
  else if v = "medium".data then some "medium".data
  else if v = "high".data then some "high".data
  else if v = "urgent".data then some "urgent".data
  else none

/-- `to_css_class(value)` on character lists: empty (falsy) input yields `''`;
otherwise the value is lowercased, stripped, looked up in `status_mapping`,
and on a miss has its underscores replaced by hyphens. -/
def toCssClassL (l : List Char) : List Char :=
  if l = [] then []
  else
    let v := pyStrip (pyLower l)
    match statusMap v with
    | some m => m
    | none => replaceUnd v

/-- `to_css_class(value)` for a string input. -/
def to_css_class (s : String) : String := String.mk (toCssClassL s.data)

example : to_css_class "IN_PROGRESS" = "in-progress" := by decide
example : to_css_class "unknown_status" = "unknown-status" := by decide
example : to_css_class "" = "" := by decide
example : to_css_class "  Created " = "pending" := by decide


/-! ### Character-level lemmas for the `to_css_class` proofs -/

theorem toNat_ofNat_of_lt {n : Nat} (h : n < 55296) : (Char.ofNat n).toNat = n := by
  have hv : n.isValidChar := Or.inl h
  simp [Char.ofNat, hv, Char.ofNatAux, Char.toNat, UInt32.toNat, BitVec.toNat_ofNatLt]

theorem toNat_toLower (c : Char) :
    (Char.toLower c).toNat =
      if c.toNat ≥ 65 ∧ c.toNat ≤ 90 then c.toNat + 32 else c.toNat := by
  simp only [Char.toLower]
  split
  · next h => rw [toNat_ofNat_of_lt (by omega)]
  · rfl

theorem toLower_eq_self (c : Char) (h : ¬(c.toNat ≥ 65 ∧ c.toNat ≤ 90)) :
    Char.toLower c = c := by
  simp only [Char.toLower]
  rw [if_neg h]

theorem toLower_toLower (c : Char) :
    Char.toLower (Char.toLower c) = Char.toLower c := by
  by_cases h : c.toNat ≥ 65 ∧ c.toNat ≤ 90
  · apply toLower_eq_self
    rw [toNat_toLower, if_pos h]
    omega
  · rw [toLower_eq_self c h, toLower_eq_self c h]

theorem char_ne_of_toNat_ne {c d : Char} (h : c.toNat ≠ d.toNat) : c ≠ d :=
  fun he => h (congrArg Char.toNat he)

theorem toLower_ne_und (c : Char) (h : c ≠ '_') : Char.toLower c ≠ '_' := by
  by_cases hr : c.toNat ≥ 65 ∧ c.toNat ≤ 90
  · apply char_ne_of_toNat_ne
    rw [toNat_toLower, if_pos hr]
    have : ('_' : Char).toNat = 95 := rfl
    omega
  · rw [toLower_eq_self c hr]; exact h

theorem undToDash_eq_self {c : Char} (h : c ≠ '_') : undToDash c = c := if_neg h

theorem undToDash_undToDash (c : Char) : undToDash (undToDash c) = undToDash c := by
  by_cases h : c = '_'
  · subst h; decide
  · rw [undToDash_eq_self h, undToDash_eq_self h]

theorem undToDash_ne_und (c : Char) : undToDash c ≠ '_' := by
  by_cases h : c = '_'
  · subst h; decide
  · rw [undToDash_eq_self h]; exact h

theorem undToDash_toLower (c : Char) :
    undToDash (Char.toLower c) = Char.toLower (undToDash c) := by
  by_cases h : c = '_'
  · subst h; decide
  · rw [undToDash_eq_self h, undToDash_eq_self (toLower_ne_und c h)]

theorem pyIsSpace_toLower (c : Char) : pyIsSpace (Char.toLower c) = pyIsSpace c := by
  by_cases h : c.toNat ≥ 65 ∧ c.toNat ≤ 90
  · have h1 : pyIsSpace c = false := by
      simp only [pyIsSpace, Bool.or_eq_false_iff, decide_eq_false_iff_not]
      omega
    have h2 : pyIsSpace (Char.toLower c) = false := by
      simp only [pyIsSpace, Bool.or_eq_false_iff, decide_eq_false_iff_not, toNat_toLower,
        if_pos h]
      omega
    rw [h1, h2]
  · rw [toLower_eq_self c h]

theorem pyIsSpace_undToDash (c : Char) : pyIsSpace (undToDash c) = pyIsSpace c := by
  by_cases h : c = '_'
  · subst h; decide
  · rw [undToDash_eq_self h]

/-! ### List-level lemmas about stripping, lowering and `replace('_', '-')` -/

theorem head?_dropWhile {α} {p : α → Bool} {c : α} :
    ∀ {l : List α}, (List.dropWhile p l).head? = some c → p c = false := by
  intro l
  induction l with
  | nil => intro h; simp [List.dropWhile] at h
  | cons a t ih =>
    intro h
    rw [List.dropWhile_cons] at h
    by_cases ha : p a
    · rw [if_pos ha] at h; exact ih h
    · rw [if_neg ha, List.head?_cons, Option.some.injEq] at h
      rw [← h]
      exact Bool.not_eq_true _ ▸ ha

theorem head?_of_pfx {α} {l₁ l₂ : List α} {c : α} (h : l₁ <+: l₂)
    (hc : l₁.head? = some c) : l₂.head? = some c := by
  obtain ⟨t, rfl⟩ := h
  cases l₁ with
  | nil => simp at hc
  | cons a t' => simpa using hc

theorem getLast?_rdropWhile {α} {p : α → Bool} {c : α} {l : List α}
    (h : (List.rdropWhile p l).getLast? = some c) : p c = false := by
  unfold List.rdropWhile at h
  rw [List.getLast?_reverse] at h
  exact head?_dropWhile h

def NoEdgeSpace (l : List Char) : Prop :=
  (∀ c, l.head? = some c → pyIsSpace c = false) ∧
  (∀ c, l.getLast? = some c → pyIsSpace c = false)

theorem noEdgeSpace_pyStrip (l : List Char) : NoEdgeSpace (pyStrip l) := by
  constructor
  · intro c hc
    exact head?_dropWhile (head?_of_pfx ( List.rdropWhile_prefix _ _) hc)
  · intro c hc
    exact getLast?_rdropWhile hc

theorem dropWhile_eq_self_of {α} (p : α → Bool) (l : List α)
    (h : ∀ c, l.head? = some c → p c = false) : List.dropWhile p l = l := by
  cases l with
  | nil => rfl
  | cons a t =>
    rw [List.dropWhile_cons, if_neg]
    simp [h a rfl]

theorem rdropWhile_eq_self_of {α} (p : α → Bool) (l : List α)
    (h : ∀ c, l.getLast? = some c → p c = false) : List.rdropWhile p l = l := by
  unfold List.rdropWhile
  rw [dropWhile_eq_self_of p l.reverse
      (fun c hc => h c (by rwa [List.head?_reverse] at hc)),
    List.reverse_reverse]

theorem pyStrip_eq_self {l : List Char} (h : NoEdgeSpace l) : pyStrip l = l := by
  unfold pyStrip
  rw [dropWhile_eq_self_of _ _ h.1]
  exact rdropWhile_eq_self_of _ _ h.2

theorem dropWhile_map_eq (g : Char → Char) (p : Char → Bool)
    (hp : ∀ c, p (g c) = p c) (l : List Char) :
    List.dropWhile p (l.map g) = (List.dropWhile p l).map g := by
  rw [List.dropWhile_map]
  have hpg : p ∘ g = p := funext hp
  rw [hpg]

theorem rdropWhile_map_eq (g : Char → Char) (p : Char → Bool)
    (hp : ∀ c, p (g c) = p c) (l : List Char) :
    List.rdropWhile p (l.map g) = (List.rdropWhile p l).map g := by
  unfold List.rdropWhile
  rw [← List.map_reverse, dropWhile_map_eq g p hp, List.map_reverse]

theorem pyStrip_map (g : Char → Char) (hp : ∀ c, pyIsSpace (g c) = pyIsSpace c)
    (l : List Char) : pyStrip (l.map g) = (pyStrip l).map g := by
  unfold pyStrip
  rw [dropWhile_map_eq g _ hp, rdropWhile_map_eq g _ hp]

theorem pyStrip_replaceUnd (l : List Char) :
    pyStrip (replaceUnd l) = replaceUnd (pyStrip l) :=
  pyStrip_map undToDash pyIsSpace_undToDash l

def Lowered (l : List Char) : Prop := ∀ c ∈ l, Char.toLower c = c

theorem lowered_pyLower (l : List Char) : Lowered (pyLower l) := by
  intro c hc
  rw [pyLower, List.mem_map] at hc
  obtain ⟨a, _, rfl⟩ := hc
  exact toLower_toLower a

theorem pyLower_eq_self {l : List Char} (h : Lowered l) : pyLower l = l := by
  unfold pyLower
  rw [List.map_congr_left h]
  simp

theorem mem_pyStrip {c : Char} {l : List Char} (h : c ∈ pyStrip l) : c ∈ l := by
  unfold pyStrip at h
  exact (List.dropWhile_sublist _).subset
    ((( List.rdropWhile_prefix _ _).sublist).subset h)

theorem lowered_pyStrip {l : List Char} (h : Lowered l) : Lowered (pyStrip l) :=
  fun c hc => h c (mem_pyStrip hc)

theorem lowered_replaceUnd {l : List Char} (h : Lowered l) : Lowered (replaceUnd l) := by
  intro c hc
  rw [replaceUnd, List.mem_map] at hc
  obtain ⟨a, ha, rfl⟩ := hc
  rw [← undToDash_toLower, h a ha]

theorem replaceUnd_replaceUnd (l : List Char) :
    replaceUnd (replaceUnd l) = replaceUnd l := by
  unfold replaceUnd
  rw [List.map_map]
  exact List.map_congr_left (fun a _ => undToDash_undToDash a)

theorem und_not_mem_replaceUnd (l : List Char) : '_' ∉ replaceUnd l := by
  intro h
  rw [replaceUnd, List.mem_map] at h
  obtain ⟨a, _, ha⟩ := h
  exact undToDash_ne_und a ha

theorem replaceUnd_eq_of_no_dash :
    ∀ {u k : List Char}, '-' ∉ k → replaceUnd u = k → u = k := by
  intro u
  induction u with
  | nil =>
    intro k _ h
    simp only [replaceUnd, List.map_nil] at h
    exact h
  | cons a u' ih =>
    intro k hk h
    cases k with
    | nil => simp [replaceUnd] at h
    | cons b k' =>
      simp only [replaceUnd, List.map_cons, List.cons.injEq] at h
      obtain ⟨h1, h2⟩ := h
      have hb : b ≠ '-' := fun hbe => hk (hbe ▸ List.mem_cons_self b k')
      have ha : a = b := by
        by_cases hau : a = '_'
        · subst hau
          have hdb : ('-' : Char) = b := by simpa [undToDash] using h1
          exact absurd hdb.symm hb
        · rwa [undToDash_eq_self hau] at h1
      subst ha
      rw [ih (fun hm => hk (List.mem_cons_of_mem _ hm)) h2]


/-! ### `status_mapping` lemmas and the `to_css_class` theorems -/

/-- Every value of the `status_mapping` dict is a fixed point of the filter. -/
theorem statusMap_canonical {v m : List Char} (h : statusMap v = some m) :
    toCssClassL m = m := by
  unfold statusMap at h
  by_cases h1 : v = "created".data
  · rw [if_pos h1, Option.some.injEq] at h; subst h; decide
  · rw [if_neg h1] at h
    by_cases h2 : v = "assigned".data
    · rw [if_pos h2, Option.some.injEq] at h; subst h; decide
    · rw [if_neg h2] at h
      by_cases h3 : v = "in_progress".data
      · rw [if_pos h3, Option.some.injEq] at h; subst h; decide
      · rw [if_neg h3] at h
        by_cases h4 : v = "inprogress".data
        · rw [if_pos h4, Option.some.injEq] at h; subst h; decide
        · rw [if_neg h4] at h
          by_cases h5 : v = "overdue".data
          · rw [if_pos h5, Option.some.injEq] at h; subst h; decide
          · rw [if_neg h5] at h
            by_cases h6 : v = "completed".data
            · rw [if_pos h6, Option.some.injEq] at h; subst h; decide
            · rw [if_neg h6] at h
              by_cases h7 : v = "cancelled".data
              · rw [if_pos h7, Option.some.injEq] at h; subst h; decide
              · rw [if_neg h7] at h
                by_cases h8 : v = "pending".data
                · rw [if_pos h8, Option.some.injEq] at h; subst h; decide
                · rw [if_neg h8] at h
                  by_cases h9 : v = "low".data
                  · rw [if_pos h9, Option.some.injEq] at h; subst h; decide
                  · rw [if_neg h9] at h
                    by_cases h10 : v = "medium".data
                    · rw [if_pos h10, Option.some.injEq] at h; subst h; decide
                    · rw [if_neg h10] at h
                      by_cases h11 : v = "high".data
                      · rw [if_pos h11, Option.some.injEq] at h; subst h; decide
                      · rw [if_neg h11] at h
                        by_cases h12 : v = "urgent".data
                        · rw [if_pos h12, Option.some.injEq] at h; subst h; decide
                        · rw [if_neg h12] at h
                          exact Option.noConfusion h

/-- A lookup miss stays a miss after `value.replace('_', '-')`. -/
theorem statusMap_replaceUnd_none {v : List Char} (hv : statusMap v = none) :
    statusMap (replaceUnd v) = none := by
  have key : ∀ k : List Char, '-' ∉ k → statusMap k ≠ none → replaceUnd v ≠ k :=
    fun k hk hs h => hs (replaceUnd_eq_of_no_dash hk h ▸ hv)
  have kund : replaceUnd v ≠ "in_progress".data := fun h =>
    und_not_mem_replaceUnd v (h.symm ▸ (by decide : ('_' : Char) ∈ "in_progress".data))
  unfold statusMap
  rw [if_neg (key _ (by decide) (by decide)), if_neg (key _ (by decide) (by decide)),
    if_neg kund, if_neg (key _ (by decide) (by decide)),
    if_neg (key _ (by decide) (by decide)), if_neg (key _ (by decide) (by decide)),
    if_neg (key _ (by decide) (by decide)), if_neg (key _ (by decide) (by decide)),
    if_neg (key _ (by decide) (by decide)), if_neg (key _ (by decide) (by decide)),
    if_neg (key _ (by decide) (by decide)), if_neg (key _ (by decide) (by decide))]

theorem toCssClassL_eq (l : List Char) :
    toCssClassL l =
      if l = [] then []
      else
        match statusMap (pyStrip (pyLower l)) with
        | some m => m
        | none => replaceUnd (pyStrip (pyLower l)) := rfl

theorem toCssClassL_idem (l : List Char) :
    toCssClassL (toCssClassL l) = toCssClassL l := by
  by_cases h0 : l = []
  · subst h0; rfl
  · rw [toCssClassL_eq l, if_neg h0]
    rcases hm : statusMap (pyStrip (pyLower l)) with _ | m
    · -- lookup miss: the result is `replace('_', '-')` of the cleaned value
      have hlow : Lowered (replaceUnd (pyStrip (pyLower l))) :=
        lowered_replaceUnd (lowered_pyStrip (lowered_pyLower l))
      have hnes : NoEdgeSpace (replaceUnd (pyStrip (pyLower l))) := by
        rw [← pyStrip_replaceUnd]
        exact noEdgeSpace_pyStrip _
      have hclean : pyStrip (pyLower (replaceUnd (pyStrip (pyLower l)))) =
          replaceUnd (pyStrip (pyLower l)) := by
        rw [pyLower_eq_self hlow, pyStrip_eq_self hnes]
      have hsm : statusMap (replaceUnd (pyStrip (pyLower l))) = none :=
        statusMap_replaceUnd_none hm
      by_cases hwe : replaceUnd (pyStrip (pyLower l)) = []
      · rw [hwe]; rfl
      · rw [toCssClassL_eq, if_neg hwe, hclean, hsm]
        exact replaceUnd_replaceUnd _
    · -- lookup hit: a canonical value, a fixed point of the filter
      exact statusMap_canonical hm

/-- C6: `to_css_class("IN_PROGRESS") == "in-progress"`,
`to_css_class("unknown_status") == "unknown-status"`, `to_css_class("") == ""`;
every input is lowercased and trimmed first, the known statuses and priority
levels map to their fixed canonical names, any other value has its underscores
replaced with hyphens, and empty input yields the empty string. -/
theorem to_css_class_spec :
    to_css_class "IN_PROGRESS" = "in-progress"
  ∧ to_css_class "unknown_status" = "unknown-status"
  ∧ to_css_class "" = ""
  ∧ (to_css_class "created" = "pending" ∧ to_css_class "assigned" = "in-progress"
      ∧ to_css_class "in_progress" = "in-progress"
      ∧ to_css_class "inprogress" = "in-progress"
      ∧ to_css_class "overdue" = "overdue" ∧ to_css_class "completed" = "completed"
      ∧ to_css_class "cancelled" = "cancelled" ∧ to_css_class "pending" = "pending"
      ∧ to_css_class "low" = "low" ∧ to_css_class "medium" = "medium"
      ∧ to_css_class "high" = "high" ∧ to_css_class "urgent" = "urgent")
  ∧ (∀ s : String, s.data ≠ [] →
      to_css_class s =
        String.mk
          (match statusMap (pyStrip (pyLower s.data)) with
            | some m => m
            | none => replaceUnd (pyStrip (pyLower s.data)))) := by
  refine ⟨by decide, by decide, by decide, by decide, ?_⟩
  intro s hs
  unfold to_css_class
  rw [toCssClassL_eq, if_neg hs]

/-- Witness for `to_css_class_spec`: the general clause evaluated on the
non-empty input `"a_b"`, an unknown status whose underscore becomes a hyphen. -/
theorem to_css_class_spec_witness : to_css_class "a_b" = "a-b" := by
  rw [to_css_class_spec.2.2.2.2 "a_b" (by decide)]
  decide

/-- C7: `to_css_class` is idempotent, hence in particular applying it twice to
any value already in canonical form (an output of the filter) equals applying
it once. -/
theorem to_css_class_idem (s : String) :
    to_css_class (to_css_class s) = to_css_class s := by
  unfold to_css_class
  have h : (String.mk (toCssClassL s.data)).data = toCssClassL s.data := rfl
  rw [h, toCssClassL_idem]


/-! ### Datetimes and the order-timestamp filters -/

/-- A Python `datetime`: an absolute instant `t` (an integer count of
microseconds) plus a timezone-awareness flag.  For a naive value, `t` is its
wall-clock reading in the current timezone. -/
structure PyDateTime where
  t : Int
  aware : Bool
deriving DecidableEq

/-- `timezone.is_naive(d)` -/
def is_naive (d : PyDateTime) : Bool := !d.aware

/-- `timezone.make_aware(d)` in the current timezone, whose UTC offset is
`off` microseconds: the naive wall-clock reading becomes the instant
`t - off`. -/
def make_aware (off : Int) (d : PyDateTime) : PyDateTime := ⟨d.t - off, true⟩

/-- `timezone.localtime(d)` for an aware `d`: the same absolute instant,
rendered in the local zone. -/
def localtime (d : PyDateTime) : PyDateTime := ⟨d.t, true⟩

/-- Microseconds per minute. -/
def usPerMin : Int := 60000000

/-- Microseconds per day. -/
def usPerDay : Int := 86400000000

/-- Subtraction of two `datetime`s: mixing naive and aware raises
`TypeError`; otherwise the difference of the readings. -/
def dtSub (a b : PyDateTime) : Except PyExc Int :=
  if a.aware = b.aware then .ok (a.t - b.t) else .error .typeError

/-- An order's five optional timestamp fields.  A Python `datetime` object is
always truthy, so the source's `if val:` on a field is `Option.isSome` here. -/
structure Order where
  completed_at : Option PyDateTime
  cancelled_at : Option PyDateTime
  started_at : Option PyDateTime
  assigned_at : Option PyDateTime
  created_at : Option PyDateTime
deriving DecidableEq

/-- The aware-coercion the `order_last_update` loop applies to the timestamp
it found. -/
def ensureAware (off : Int) (d : PyDateTime) : PyDateTime :=
  if is_naive d then make_aware off d else d

/-- `order_last_update(order)`: scan `completed_at > cancelled_at >
started_at > assigned_at > created_at`, return the first set field coerced to
aware, `timezone.now()` (`⟨now, true⟩`) if none is set, and `None` for a
falsy order.  The logging `except` branch is unreachable for these inputs. -/
def order_last_update (now off : Int) (order : Option Order) : Option PyDateTime :=
  match order with
  | none => none
  | some o =>
    match o.completed_at with
    | some v => some (ensureAware off v)
    | none =>
      match o.cancelled_at with
      | some v => some (ensureAware off v)
      | none =>
        match o.started_at with
        | some v => some (ensureAware off v)
        | none =>
          match o.assigned_at with
          | some v => some (ensureAware off v)
          | none =>
            match o.created_at with
            | some v => some (ensureAware off v)
            | none => some ⟨now, true⟩

/-- C2: with all five timestamp fields set, `order_last_update` returns
`completed_at` (aware-coerced) regardless of the other four; in general it
returns the first set field in the fixed priority order, aware-coerced, and
the current time when none of the five fields is set. -/
theorem order_last_update_spec (now off : Int) (o : Order) :
    (∀ c t1 t2 t3 t4, o.completed_at = some c → o.cancelled_at = some t1 →
      o.started_at = some t2 → o.assigned_at = some t3 → o.created_at = some t4 →
      order_last_update now off (some o) = some (ensureAware off c))
  ∧ order_last_update now off (some o) =
      some
        (match o.completed_at <|> o.cancelled_at <|> o.started_at <|>
            o.assigned_at <|> o.created_at with
          | some v => ensureAware off v
          | none => ⟨now, true⟩)
  ∧ (o.completed_at = none → o.cancelled_at = none → o.started_at = none →
      o.assigned_at = none → o.created_at = none →
      order_last_update now off (some o) = some ⟨now, true⟩) := by
  refine ⟨?_, ?_, ?_⟩
  · intro c t1 t2 t3 t4 h1 _ _ _ _
    simp only [order_last_update, h1]
  · rcases o with ⟨_ | c, _ | t1, _ | t2, _ | t3, _ | t4⟩ <;> rfl
  · intro h1 h2 h3 h4 h5
    simp only [order_last_update, h1, h2, h3, h4, h5]

/-- Witness for `order_last_update_spec`: all five fields set, a naive
`completed_at` at reading 5 with offset 60, hence instant `-55`, aware. -/
theorem order_last_update_spec_witness :
    order_last_update 1000 60
      (some ⟨some ⟨5, false⟩, some ⟨4, true⟩, some ⟨3, true⟩,
        some ⟨2, true⟩, some ⟨1, true⟩⟩) = some ⟨-55, true⟩ := by
  rw [(order_last_update_spec 1000 60 _).1 ⟨5, false⟩ ⟨4, true⟩ ⟨3, true⟩
    ⟨2, true⟩ ⟨1, true⟩ rfl rfl rfl rfl rfl]
  decide

/-- `elapsed_minutes(order)`: floored minutes from `started_at or created_at`
to `timezone.now()`, clamped at 0.  Subtracting a naive start from the aware
`now` raises `TypeError`, which the bare `except Exception` turns into 0. -/
def elapsed_minutes (now : Int) (order : Option Order) : Int :=
  match order with
  | none => 0
  | some o =>
    match o.started_at <|> o.created_at with
    | none => 0
    | some start =>
      let dt := if start.aware then localtime start else start
      match dtSub ⟨now, true⟩ dt with
      | .error _ => 0
      | .ok du => max 0 (du.fdiv usPerMin)

/-- `actual_time_minutes(order)`: floored minutes between the start
(`started_at or created_at`, aware-coerced) and the end (`completed_at`
aware-coerced if set, else `timezone.now()`), clamped at 0. -/
def actual_time_minutes (now off : Int) (order : Option Order) : Int :=
  match order with
  | none => 0
  | some o =>
    match o.started_at <|> o.created_at with
    | none => 0
    | some st =>
      let start_time := if is_naive st then make_aware off st else st
      let end_time :=
        match o.completed_at with
        | some e => if is_naive e then make_aware off e else e
        | none => (⟨now, true⟩ : PyDateTime)
      match dtSub end_time start_time with
      | .error _ => 0
      | .ok du => max 0 (du.fdiv usPerMin)

theorem elapsed_minutes_nonneg (now : Int) (order : Option Order) :
    0 ≤ elapsed_minutes now order := by
  unfold elapsed_minutes
  dsimp only
  repeat' split
  all_goals first
    | exact le_refl (0 : Int)
    | exact le_max_left 0 _

theorem actual_time_minutes_nonneg (now off : Int) (order : Option Order) :
    0 ≤ actual_time_minutes now off order := by
  unfold actual_time_minutes
  dsimp only
  repeat' split
  all_goals first
    | exact le_refl (0 : Int)
    | exact le_max_left 0 _

/-- C5: for every order record and every pair of timestamps it carries,
`elapsed_minutes` and `actual_time_minutes` return an integer that is never
negative: the floored minute difference is clamped to at least 0. -/
theorem minutes_filters_nonneg (now off : Int) (order : Option Order) :
    0 ≤ elapsed_minutes now order ∧ 0 ≤ actual_time_minutes now off order :=
  ⟨elapsed_minutes_nonneg now order, actual_time_minutes_nonneg now off order⟩

/-- `timesince_days(value)`: whole days from `value` to `timezone.now()`
(`delta.days` floors), with no clamping; 0 for a missing value. -/
def timesince_days (now off : Int) (value : Option PyDateTime) : Int :=
  match value with
  | none => 0
  | some v =>
    let w := if is_naive v then make_aware off v else v
    (now - w.t).fdiv usPerDay

theorem fdiv_le_neg_one {a b : Int} (ha : a < 0) (hb : 0 < b) : a.fdiv b ≤ -1 := by
  rw [Int.fdiv_eq_ediv a (le_of_lt hb)]
  have := Int.ediv_neg' ha hb
  omega

/-- C10: `timesince_days` applies no clamping, so a timestamp whose
(aware-coerced) instant is strictly in the future of `now` yields a negative
day count, at most `-1`. -/
theorem timesince_days_future_neg (now off : Int) (v : PyDateTime)
    (h : now < (if is_naive v then make_aware off v else v).t) :
    timesince_days now off (some v) ≤ -1 := by
  unfold timesince_days
  exact fdiv_le_neg_one (by omega) (by decide)

/-- Witness for `timesince_days_future_neg`: an aware timestamp one day in
the future of `now = 0` gives day count `-1`. -/
theorem timesince_days_future_neg_witness :
    timesince_days 0 0 (some ⟨86400000000, true⟩) ≤ -1 :=
  timesince_days_future_neg 0 0 ⟨86400000000, true⟩ (by decide)


/-! ### `margin_percentage` -/

/-- Banker's rounding to an integer: Python's `round` tie-breaking. -/
def roundHalfEven (q : ℚ) : Int :=
  if q - ⌊q⌋ < 1/2 then ⌊q⌋
  else if (1 : ℚ)/2 < q - ⌊q⌋ then ⌊q⌋ + 1
  else if ⌊q⌋ % 2 = 0 then ⌊q⌋ else ⌊q⌋ + 1

/-- Python `round(x, 2)`: round half-to-even at the second decimal. -/
def round2 (q : ℚ) : ℚ := (roundHalfEven (q * 100) : ℚ) / 100

theorem roundHalfEven_intCast (n : Int) : roundHalfEven (n : ℚ) = n := by
  unfold roundHalfEven
  rw [Int.floor_intCast, if_pos]
  norm_num

/-- Evaluation helper: when `q * 100` is the integer `n`, `round2 q` is
`n / 100`. -/
theorem round2_of_mul_eq {q : ℚ} {n : Int} (h : q * 100 = (n : ℚ)) :
    round2 q = (n : ℚ) / 100 := by
  unfold round2
  rw [h, roundHalfEven_intCast]

/-- The first positional argument of `margin_percentage`.  `Option ℚ` models
the result of `float(...)`: `none` when the coercion raises.  A dict-like
argument (`hasattr(price, 'get')`) carries optional entries for `'price'`
and `'cost_price'` (`.get(key, 0)` falls back to 0 on a missing key); an
object-like argument carries the two attributes. -/
inductive PriceArg where
  | scalar (v : Option ℚ)
  | dictLike (price : Option (Option ℚ)) (cost_price : Option (Option ℚ))
  | objLike (price : Option ℚ) (cost_price : Option ℚ)

/-- `float(price)` on the first argument: a dict or an object is not numeric,
so `float` raises `TypeError` (`none`). -/
def floatOfArg : PriceArg → Option ℚ
  | .scalar v => v
  | _ => none

/-- `margin_percentage(price, cost_price)`: the dict branch, the
attribute branch, and the two-value branch in source order; the caught
`(ValueError, TypeError, AttributeError)` yield 0.  The final
`except Exception: return ''` branch is unreachable for these inputs. -/
def margin_percentage (price : PriceArg) (cost_price : Option (Option ℚ)) : ℚ :=
  let vals : Option (ℚ × ℚ) :=
    match cost_price, price with
    | none, .dictLike p c =>
      match p.getD (some 0), c.getD (some 0) with
      | some pv, some cv => some (pv, cv)
      | _, _ => none
    | none, .objLike p c =>
      match p, c with
      | some pv, some cv => some (pv, cv)
      | _, _ => none
    | none, .scalar v =>
      match v with
      | some pv => some (pv, 0)
      | none => none
    | some c, pr =>
      match floatOfArg pr, c with
      | some pv, some cv => some (pv, cv)
      | _, _ => none
  match vals with
  | none => 0
  | some (pv, cv) =>
    if pv ≤ 0 ∨ cv ≤ 0 then 0 else round2 ((pv - cv) / pv * 100)

/-- C3: `margin_percentage(100, 60) == 40.0`, `margin_percentage(0, 60) == 0`,
`margin_percentage({'price': 100, 'cost_price': 50}) == 50.0`; in general the
result is `((price - cost) / price) * 100` rounded to 2 decimals, and 0
whenever price ≤ 0, cost ≤ 0, or a numeric coercion fails. -/
theorem margin_percentage_spec :
    margin_percentage (.scalar (some 100)) (some (some 60)) = 40
  ∧ margin_percentage (.scalar (some 0)) (some (some 60)) = 0
  ∧ margin_percentage (.dictLike (some (some 100)) (some (some 50))) none = 50
  ∧ (∀ p c : ℚ, 0 < p → 0 < c →
      margin_percentage (.scalar (some p)) (some (some c)) =
        round2 ((p - c) / p * 100))
  ∧ (∀ p c : ℚ, p ≤ 0 ∨ c ≤ 0 →
      margin_percentage (.scalar (some p)) (some (some c)) = 0)
  ∧ (∀ co, margin_percentage (.scalar none) co = 0)
  ∧ (∀ pr, margin_percentage pr (some none) = 0) := by
  refine ⟨?_, ?_, ?_, ?_, ?_, ?_, ?_⟩
  · show (if (100 : ℚ) ≤ 0 ∨ (60 : ℚ) ≤ 0 then 0
      else round2 ((100 - 60) / 100 * 100)) = 40
    rw [if_neg (by norm_num), round2_of_mul_eq (n := 4000) (by norm_num)]
    norm_num
  · show (if (0 : ℚ) ≤ 0 ∨ (60 : ℚ) ≤ 0 then 0
      else round2 ((0 - 60) / 0 * 100)) = 0
    rw [if_pos (by norm_num)]
  · show (if (100 : ℚ) ≤ 0 ∨ (50 : ℚ) ≤ 0 then 0
      else round2 ((100 - 50) / 100 * 100)) = 50
    rw [if_neg (by norm_num), round2_of_mul_eq (n := 5000) (by norm_num)]
    norm_num
  · intro p c hp hc
    show (if p ≤ 0 ∨ c ≤ 0 then 0 else round2 ((p - c) / p * 100)) =
      round2 ((p - c) / p * 100)
    rw [if_neg (not_or.mpr ⟨not_le.mpr hp, not_le.mpr hc⟩)]
  · intro p c h
    show (if p ≤ 0 ∨ c ≤ 0 then 0 else round2 ((p - c) / p * 100)) = 0
    rw [if_pos h]
  · intro co
    rcases co with _ | c
    · rfl
    · rcases c with _ | cv <;> rfl
  · intro pr
    rcases pr with v | ⟨p, c⟩ | ⟨p, c⟩
    · rcases v with _ | q <;> rfl
    · rfl
    · rfl

/-- Witness for `margin_percentage_spec`: the general clause at price 200,
cost 50: a 75% margin. -/
theorem margin_percentage_spec_witness :
    margin_percentage (.scalar (some 200)) (some (some 50)) = 75 := by
  rw [margin_percentage_spec.2.2.2.1 200 50 (by norm_num) (by norm_num),
    round2_of_mul_eq (n := 7500) (by norm_num)]
  norm_num

/-! ### `format_minutes` -/

/-- A value passed to a numeric filter: `None`, a number (a successful
`float(...)`), or a non-numeric value on which `float` raises
`ValueError`/`TypeError`. -/
inductive NumVal where
  | none
  | num (q : ℚ)
  | nonNum

/-- `format_minutes(value)`: `''` for `None`;
`total = int(max(0, float(value)))` (truncation of the non-negative clamp is
`⌊·⌋`), rendered as hours-and-minutes / hours-only / minutes-only by the
truthiness of `hours` and `mins`; `''` when `float` raises. -/
def format_minutes (value : NumVal) : String :=
  match value with
  | .none => ""
  | .nonNum => ""
  | .num q =>
    let total : Nat := (⌊max 0 q⌋).toNat
    let hours := total / 60
    let mins := total % 60
    if hours ≠ 0 ∧ mins ≠ 0 then Nat.repr hours ++ "h " ++ Nat.repr mins ++ "m"
    else if hours ≠ 0 then Nat.repr hours ++ "h"
    else Nat.repr mins ++ "m"

/-- C8: `format_minutes(90) == "1h 30m"`, `format_minutes(60) == "1h"`,
`format_minutes(5) == "5m"`, `format_minutes(-5) == "0m"`,
`format_minutes("bad") == ""`; negatives clamp to 0; every numeric value
takes one of the three compact forms; non-numeric input gives `''`. -/
theorem format_minutes_spec :
    format_minutes (.num 90) = "1h 30m"
  ∧ format_minutes (.num 60) = "1h"
  ∧ format_minutes (.num 5) = "5m"
  ∧ format_minutes (.num (-5)) = "0m"
  ∧ format_minutes .nonNum = ""
  ∧ format_minutes .none = ""
  ∧ (∀ q : ℚ, q ≤ 0 → format_minutes (.num q) = "0m")
  ∧ (∀ q : ℚ, format_minutes (.num q) =
      if (⌊max 0 q⌋).toNat / 60 ≠ 0 ∧ (⌊max 0 q⌋).toNat % 60 ≠ 0 then
        Nat.repr ((⌊max 0 q⌋).toNat / 60) ++ "h " ++
          Nat.repr ((⌊max 0 q⌋).toNat % 60) ++ "m"
      else if (⌊max 0 q⌋).toNat / 60 ≠ 0 then Nat.repr ((⌊max 0 q⌋).toNat / 60) ++ "h"
      else Nat.repr ((⌊max 0 q⌋).toNat % 60) ++ "m") := by
  refine ⟨by decide, by decide, by decide, by decide, rfl, rfl, ?_, fun q => rfl⟩
  intro q hq
  have h0 : (0 : ℚ) ⊔ q = 0 := max_eq_left hq
  dsimp only [format_minutes]
  rw [h0, Int.floor_zero]
  rfl

/-- Witness for `format_minutes_spec`: the clamping clause at `-7`. -/
theorem format_minutes_spec_witness : format_minutes (.num (-7)) = "0m" :=
  format_minutes_spec.2.2.2.2.2.2.1 (-7) (by norm_num)


/-! ### `format_qty` and `replace` -/

/-- A template value as `format_qty` and `replace` distinguish them: `None`,
a `str`, an `int`, or a `float` carried as its `str(...)` rendering (which is
what `Decimal(str(value))` consumes). -/
inductive PyVal where
  | none
  | str (s : String)
  | int (n : Int)
  | float (r : String)
deriving DecidableEq

/-- Python `str(value)` for the modelled values. -/
def pyStr : PyVal → String
  | .none => "None"
  | .str s => s
  | .int n => Int.repr n
  | .float r => r

/-- Python truthiness of the modelled values (a float is zero exactly when
its `str` is `"0.0"` or `"-0.0"`). -/
def pyTruthy : PyVal → Bool
  | .none => false
  | .str s => s ≠ ""
  | .int n => n ≠ 0
  | .float r => r ≠ "0.0" ∧ r ≠ "-0.0"

/-- A `decimal.Decimal` value: integer coefficient and decimal scale,
representing `coeff / 10^scale`.  A plain literal `[±]digits[.digits]`
parses to exactly this; exponent forms do not occur among the inputs
modelled here. -/
structure Dec where
  coeff : Int
  scale : Nat
deriving DecidableEq

def allDigits (l : List Char) : Bool := l.all (fun c => c.isDigit)

def digitsVal (l : List Char) : Nat :=
  l.foldl (fun n c => 10 * n + (c.toNat - 48)) 0

/-- `decimal.Decimal(s)` on a plain decimal literal: optional sign, integer
digits, optional fractional digits, at least one digit in all; anything else
raises `decimal.InvalidOperation` (`none`). -/
def parseDec (l : List Char) : Option Dec :=
  let sb : Bool × List Char :=
    match l with
    | '-' :: r => (true, r)
    | '+' :: r => (false, r)
    | r => (false, r)
  match sb.2.splitOn '.' with
  | [ip] =>
    if ip ≠ [] ∧ allDigits ip then
      some ⟨(if sb.1 then -1 else 1) * digitsVal ip, 0⟩
    else none
  | [ip, fp] =>
    if (ip ≠ [] ∨ fp ≠ []) ∧ allDigits ip ∧ allDigits fp then
      some ⟨(if sb.1 then -1 else 1) *
        (digitsVal ip * 10 ^ fp.length + digitsVal fp), fp.length⟩
    else none
  | _ => none

/-- `num % 1 != 0`: the value has a nonzero fractional part. -/
def Dec.nonIntegral (d : Dec) : Bool := d.coeff % (10 ^ d.scale : Int) ≠ 0

/-- `int(num)`: truncation toward zero — only used when the value is
integral, where the division is exact. -/
def Dec.toInt (d : Dec) : Int := d.coeff / (10 ^ d.scale : Int)

/-- Round-half-even integer division (for `b > 0`): the tie-breaking of
`decimal`'s default `ROUND_HALF_EVEN`. -/
def divRoundHalfEven (a b : Int) : Int :=
  let q := a.fdiv b
  let r := a.fmod b
  if 2 * r < b then q
  else if b < 2 * r then q + 1
  else if q % 2 = 0 then q else q + 1

/-- `str(num.quantize(Decimal('0.01')))`: the signed hundredths count `n`
rendered with exactly two decimal places. -/
def render2dp (n : Int) : List Char :=
  let a := n.natAbs
  let frac := a % 100
  let fracDigits := (if frac < 10 then "0" else "") ++ Nat.repr frac
  (((if n < 0 then "-" else "") ++ Nat.repr (a / 100) ++ "." ++ fracDigits)).data

/-- `format_qty(value)`: `'0'` for `None`/`''`; otherwise the value is parsed
as a `Decimal` (from the string itself for `str` input, from `str(value)`
otherwise), printed as `int(num)` when integral and as the 2-decimal
quantization with trailing `'0'`s and `'.'`s stripped when not.  A parse
failure raises `decimal.InvalidOperation`, which the
`except (ValueError, TypeError, ZeroDivisionError)` clause does **not**
catch, so the exception escapes and the `str(value)` fallback of the source
is unreachable for failed coercions. -/
def format_qty (value : PyVal) : Except PyExc String :=
  if value = .none ∨ value = .str "" then .ok "0"
  else
    match parseDec (pyStr value).data with
    | none => .error .invalidOperation
    | some num =>
      let result : List Char :=
        if num.nonIntegral then
          render2dp (divRoundHalfEven (100 * num.coeff) (10 ^ num.scale))
        else (Int.repr num.toInt).data
      let result :=
        if '.' ∈ result then
          List.rdropWhile (· == '.') (List.rdropWhile (· == '0') result)
        else result
      .ok (String.mk result)

/-- `arg.split(':', 1)` guarded by `':' in arg`: the text before and after
the first colon. -/
def splitFirstColon (l : List Char) : Option (List Char × List Char) :=
  if ':' ∈ l then some (l.takeWhile (· != ':'), (l.dropWhile (· != ':')).drop 1)
  else none

/-- Python `str.replace(old, new)` for non-empty `old`: left-to-right,
non-overlapping. -/
def strReplaceAux (o : Char) (os new : List Char) : List Char → List Char
  | [] => []
  | c :: rest =>
    if (o :: os).isPrefixOf (c :: rest) then
      new ++ strReplaceAux o os new (rest.drop os.length)
    else c :: strReplaceAux o os new rest
termination_by l => l.length
decreasing_by
  all_goals simp_wf
  all_goals
    have := List.length_drop os.length rest
    omega

/-- Python `str.replace(old, new)`, including the empty-pattern case
(`new` interleaved at every position and at both ends). -/
def strReplace (l old new : List Char) : List Char :=
  match old with
  | [] => new ++ l.foldr (fun c acc => c :: (new ++ acc)) []
  | o :: os => strReplaceAux o os new l

/-- `replace(value, arg)`: falsy values pass through unchanged; a string
argument is split on its first `':'` into `old:new` (or, with no colon,
deletes the argument); `':' in arg` on a non-string `arg` raises
`TypeError`, which `except (ValueError, AttributeError)` does not catch, so
the exception escapes and the return-original-value fallback is unreachable
for non-string arguments. -/
def replace (value arg : PyVal) : Except PyExc PyVal :=
  if pyTruthy value = false then .ok value
  else
    match arg with
    | .str a =>
      match splitFirstColon a.data with
      | some (old, new) =>
        .ok (.str (String.mk (strReplace (pyStr value).data old new)))
      | none => .ok (.str (String.mk (strReplace (pyStr value).data a.data [])))
    | _ => .error .typeError

/-- C4 (code bug): the formatting examples hold
(`format_qty(4.00) == "4"`, `format_qty(4.50) == "4.5"`,
`format_qty(4.05) == "4.05"`, `"0"` for null/empty input), but for an input
whose coercion fails the filter does not return the stringified input: the
`Decimal` constructor raises `decimal.InvalidOperation`, which the `except`
clause does not catch, so the exception propagates. -/
theorem format_qty_spec :
    format_qty (.float "4.0") = .ok "4"
  ∧ format_qty (.float "4.5") = .ok "4.5"
  ∧ format_qty (.float "4.05") = .ok "4.05"
  ∧ format_qty .none = .ok "0"
  ∧ format_qty (.str "") = .ok "0"
  ∧ format_qty (.str "abc") = .error .invalidOperation :=
  ⟨rfl, rfl, rfl, rfl, rfl, rfl⟩

/-- C1 (code bug): two filters do propagate exceptions to the caller:
`format_qty` on a non-numeric string raises `decimal.InvalidOperation`
(uncaught by its `except (ValueError, TypeError, ZeroDivisionError)`), and
`replace` with a non-string argument raises `TypeError` (uncaught by its
`except (ValueError, AttributeError)`). -/
theorem filters_can_raise :
    format_qty (.str "bad") = .error .invalidOperation
  ∧ replace (.str "hello") (.int 5) = .error .typeError :=
  ⟨rfl, rfl⟩


/-! ### `extract_services` -/

/-- The fixed label prefixes the source matches lines against. -/
def svcPrefixes : List (List Char) :=
  ["selected services:".data, "services:".data, "tire services:".data,
    "add-ons:".data]

/-- `line.strip().lower()` -/
def stripLower (l : List Char) : List Char := pyLower (pyStrip l)

/-- For one matched line: `line.split(':', 1)[1].strip() if ':' in line else
''`, then (when non-empty) split on commas, each item stripped, empty items
dropped. -/
def lineServices (line : List Char) : List (List Char) :=
  let txt :=
    if ':' ∈ line then pyStrip ((line.dropWhile (· != ':')).drop 1) else []
  if txt = [] then []
  else ((txt.splitOn ',').map pyStrip).filter (fun s => s ≠ [])

/-- `extract_services(description)` on character lists: empty input gives
`[]`; otherwise scan the lines, and for each of the four prefixes append the
line's parsed services when the stripped-lowercased line starts with it. -/
def extractServicesL (l : List Char) : List (List Char) :=
  if l = [] then []
  else
    (l.splitOn '\n').foldl
      (fun services line =>
        svcPrefixes.foldl
          (fun acc pfx =>
            if pfx.isPrefixOf (stripLower line) then acc ++ lineServices line
            else acc)
          services)
      []

/-- `extract_services(description)` for a string input. -/
def extract_services (s : String) : List String :=
  (extractServicesL s.data).map String.mk

theorem not_prefix_pair {p q l : List Char} (hpq : ¬ p <+: q) (hqp : ¬ q <+: p)
    (hp : p <+: l) : ¬ q <+: l := by
  intro hq
  rcases List.prefix_or_prefix_of_prefix hp hq with h | h
  · exact hpq h
  · exact hqp h

/-- The inner loop over the four prefixes appends the line's services once
when some prefix matches (no two of the four prefixes can match the same
line) and nothing otherwise. -/
theorem svcFold_eq (line : List Char) (acc : List (List Char)) :
    svcPrefixes.foldl
      (fun a pfx =>
        if pfx.isPrefixOf (stripLower line) then a ++ lineServices line else a)
      acc
    = acc ++
      (if svcPrefixes.any (fun p => p.isPrefixOf (stripLower line))
        then lineServices line else []) := by
  have excl : ∀ p q : List Char, ¬ p <+: q → ¬ q <+: p →
      p.isPrefixOf (stripLower line) = true →
      q.isPrefixOf (stripLower line) = false := by
    intro p q hpq hqp hp
    rw [← Bool.not_eq_true, List.isPrefixOf_iff_prefix]
    exact not_prefix_pair hpq hqp (List.isPrefixOf_iff_prefix.mp hp)
  simp only [svcPrefixes, List.foldl_cons, List.foldl_nil, List.any_cons,
    List.any_nil]
  by_cases h1 : "selected services:".data.isPrefixOf (stripLower line) = true
  · have e2 := excl "selected services:".data "services:".data
      (by decide) (by decide) h1
    have e3 := excl "selected services:".data "tire services:".data
      (by decide) (by decide) h1
    have e4 := excl "selected services:".data "add-ons:".data
      (by decide) (by decide) h1
    simp [h1, e2, e3, e4]
  · by_cases h2 : "services:".data.isPrefixOf (stripLower line) = true
    · have e3 := excl "services:".data "tire services:".data
        (by decide) (by decide) h2
      have e4 := excl "services:".data "add-ons:".data
        (by decide) (by decide) h2
      simp [h1, h2, e3, e4]
    · by_cases h3 : "tire services:".data.isPrefixOf (stripLower line) = true
      · have e4 := excl "tire services:".data "add-ons:".data
          (by decide) (by decide) h3
        simp [h1, h2, h3, e4]
      · by_cases h4 : "add-ons:".data.isPrefixOf (stripLower line) = true
        · simp [h1, h2, h3, h4]
        · simp [h1, h2, h3, h4]

theorem foldl_eq_flatMap {α β} (f : List β → α → List β) (g : α → List β)
    (hf : ∀ a x, f a x = a ++ g x) :
    ∀ (ls : List α) (acc : List β), ls.foldl f acc = acc ++ ls.flatMap g := by
  intro ls
  induction ls with
  | nil => intro acc; simp
  | cons x t ih =>
    intro acc
    rw [List.foldl_cons, hf, ih, List.flatMap_cons, List.append_assoc]

/-- C9: the spec example (non-matching lines ignored), the empty-input case,
and in general: one entry per (non-empty, stripped) comma-separated item on
every line whose stripped-lowercased start matches one of the four fixed
label prefixes, across all lines in source order, duplicates preserved. -/
theorem extract_services_spec :
    extract_services "Services: Oil Change, Tire Rotation\nOther: x" =
      ["Oil Change", "Tire Rotation"]
  ∧ extract_services "" = []
  ∧ ∀ l : List Char,
      extractServicesL l =
        if l = [] then []
        else
          (l.splitOn '\n').flatMap
            (fun line =>
              if svcPrefixes.any (fun p => p.isPrefixOf (stripLower line))
              then lineServices line else []) := by
  refine ⟨by decide, rfl, ?_⟩
  intro l
  by_cases h0 : l = []
  · subst h0; rfl
  · unfold extractServicesL
    rw [if_neg h0, if_neg h0]
    have h := foldl_eq_flatMap
      (fun services line =>
        svcPrefixes.foldl
          (fun acc pfx =>
            if pfx.isPrefixOf (stripLower line) then acc ++ lineServices line
            else acc)
          services)
      (fun line =>
        if svcPrefixes.any (fun p => p.isPrefixOf (stripLower line))
        then lineServices line else [])
      (fun a line => svcFold_eq line a) (l.splitOn '\n') []
    simpa using h

end CustomFilters
